import Mathlib

/-!
Verification development for the tape-deck recording preparation tool.

The numeric core of the repository lives in `shared/counter_engine.py`
(tape-counter models), `shared/audio_processor.py` (level analysis and
normalization) and `shared/tracklist_generator.py` (counter ranges for the
tracklist report).  Python floats are embedded as exact rationals `ℚ` where
the code is purely arithmetical, and as reals `ℝ` where the code calls
`math.sqrt` / `math.pi`.  Python's `int(...)` is truncation toward zero;
`x / 0` raises `ZeroDivisionError`, which is modelled by an `Option`-valued
division (`none` = the exception propagates).
-/

/-- Python `int(...)` applied to a numeric value: truncation toward zero. -/
def pyInt (q : ℚ) : ℤ := if 0 ≤ q then ⌊q⌋ else ⌈q⌉

/-- Python division on rationals; a zero denominator raises
`ZeroDivisionError`, modelled as `none`. -/
def pyDiv (a b : ℚ) : Option ℚ := if b = 0 then none else some (a / b)

/-- Python `round(...)`: nearest integer, ties to even (banker's rounding). -/
def pyRound (q : ℚ) : ℤ :=
  if q - ⌊q⌋ < 1/2 then ⌊q⌋
  else if 1/2 < q - ⌊q⌋ then ⌊q⌋ + 1
  else if 2 ∣ ⌊q⌋ then ⌊q⌋ else ⌊q⌋ + 1

/-- One entry of the `checkpoints` list of a calibration JSON document
(`counter_engine.py`); the `note` field plays no role in any computation. -/
structure Checkpoint where
  time_seconds : ℚ
  counter : ℚ
deriving DecidableEq

/-- The calibration dictionary consumed by `calculate_counter_manual`; of its
fields only `checkpoints` enters the computation. -/
structure CalibrationData where
  checkpoints : List Checkpoint

/-- `calculate_counter_static` (counter_engine.py lines 47-52):
`int(elapsed_seconds * counter_rate)`. -/
def calculate_counter_static (elapsed_seconds counter_rate : ℚ) : ℤ :=
  pyInt (elapsed_seconds * counter_rate)

/-- The loop `for i in range(len(checkpoints) - 1)` of
`calculate_counter_manual` (lines 91-99), followed by the fallback return of
line 102: scan consecutive checkpoint pairs for a bracketing pair and
linearly interpolate there. -/
def interpLoop (elapsed_seconds fallback_rate : ℚ) : List Checkpoint → Option ℤ
  | c1 :: c2 :: rest =>
    if c1.time_seconds ≤ elapsed_seconds ∧ elapsed_seconds ≤ c2.time_seconds then
      (pyDiv (elapsed_seconds - c1.time_seconds) (c2.time_seconds - c1.time_seconds)).map
        fun factor => pyInt (c1.counter + (c2.counter - c1.counter) * factor)
    else interpLoop elapsed_seconds fallback_rate (c2 :: rest)
  | _ => some (calculate_counter_static elapsed_seconds fallback_rate)

/-- Body of `calculate_counter_manual` after the sort (lines 71-102).
`checkpoints[-1]` and `checkpoints[-2]` are read off the reversed tail:
for `c0 :: rest` with `rest.reverse = cLast :: revRest`, `cLast` is the last
checkpoint and the second-to-last is `c0` when `revRest` is empty and the
head of `revRest` otherwise. -/
def manualCore (elapsed_seconds : ℚ) (checkpoints : List Checkpoint)
    (fallback_rate : ℚ) : Option ℤ :=
  match checkpoints with
  | [] => some (calculate_counter_static elapsed_seconds fallback_rate)
  | c0 :: rest =>
    if elapsed_seconds ≤ c0.time_seconds then
      some (pyInt (elapsed_seconds *
        (if 0 < c0.time_seconds then c0.counter / c0.time_seconds else 0)))
    else
      match rest.reverse with
      | [] =>
        if c0.time_seconds ≤ elapsed_seconds then
          (pyDiv c0.counter c0.time_seconds).map fun rate => pyInt (elapsed_seconds * rate)
        else interpLoop elapsed_seconds fallback_rate [c0]
      | cLast :: revRest =>
        if cLast.time_seconds ≤ elapsed_seconds then
          (pyDiv (cLast.counter - (match revRest with | [] => c0 | x :: _ => x).counter)
              (cLast.time_seconds - (match revRest with | [] => c0 | x :: _ => x).time_seconds)).map
            fun rate => pyInt (cLast.counter + rate * (elapsed_seconds - cLast.time_seconds))
        else interpLoop elapsed_seconds fallback_rate (c0 :: rest)

/-- `sorted(checkpoints, key=lambda x: x['time_seconds'])` (line 69): Python's
stable sort by the time key. -/
def sortByTime (l : List Checkpoint) : List Checkpoint :=
  l.mergeSort fun a b => decide (a.time_seconds ≤ b.time_seconds)

/-- `calculate_counter_manual` (counter_engine.py lines 55-102). -/
def calculate_counter_manual (elapsed_seconds : ℚ)
    (calibration_data : Option CalibrationData) (fallback_rate : ℚ) : Option ℤ :=
  match calibration_data with
  | none => some (calculate_counter_static elapsed_seconds fallback_rate)
  | some cd =>
    match cd.checkpoints with
    | [] => some (calculate_counter_static elapsed_seconds fallback_rate)
    | _ => manualCore elapsed_seconds (sortByTime cd.checkpoints) fallback_rate

/-- Python `int(...)` on a real value: truncation toward zero. -/
noncomputable def pyIntR (x : ℝ) : ℤ := if 0 ≤ x then ⌊x⌋ else ⌈x⌉

/-- `calculate_counter_static` as invoked with real-valued (physics mode)
arguments; same code as `calculate_counter_static`. -/
noncomputable def calculate_counter_staticR (elapsed_seconds counter_rate : ℝ) : ℤ :=
  pyIntR (elapsed_seconds * counter_rate)

/-- `calculate_counter_auto` (counter_engine.py lines 105-130): the take-up
reel physics model; `math.sqrt` and `math.pi` embed as their exact real
counterparts. -/
noncomputable def calculate_counter_auto (elapsed_seconds counter_rate : ℝ)
    (tape_length : Option ℝ) (hub_radius tape_speed tape_thickness : ℝ) : ℤ :=
  match tape_length with
  | none => calculate_counter_staticR elapsed_seconds counter_rate
  | some len =>
    let tape_consumed := min (elapsed_seconds * tape_speed) len
    let tape_area_on_takeup := tape_consumed * tape_thickness
    let takeup_radius := Real.sqrt (hub_radius ^ 2 + tape_area_on_takeup / Real.pi)
    let mid_tape_length := len / 2
    let mid_tape_area := mid_tape_length * tape_thickness
    let mid_radius := Real.sqrt (hub_radius ^ 2 + mid_tape_area / Real.pi)
    let counter_scale := mid_radius / takeup_radius
    pyIntR (elapsed_seconds * counter_rate * counter_scale)

/-- Take-up reel radius once `tape_mm` millimetres of tape are wound on:
`sqrt(hub_radius**2 + tape_mm * tape_thickness / math.pi)`, the expression
used for both `takeup_radius` and `mid_radius` in `calculate_counter_auto`. -/
noncomputable def reelRadius (hub_radius tape_mm tape_thickness : ℝ) : ℝ :=
  Real.sqrt (hub_radius ^ 2 + tape_mm * tape_thickness / Real.pi)

/-- The constant counts-per-second rate of the auto model once the whole tape
is wound onto the take-up reel (the saturated regime). -/
noncomputable def autoEndRate (counter_rate len hub_radius tape_thickness : ℝ) : ℝ :=
  counter_rate * (reelRadius hub_radius (len / 2) tape_thickness /
    reelRadius hub_radius len tape_thickness)

/-- `calculate_tape_counter` (counter_engine.py lines 14-44): string-keyed
dispatch over the three counter modes.  The auto branch hands the rational
arguments to the real-valued physics model. -/
noncomputable def calculate_tape_counter (elapsed_seconds : ℚ) (counter_mode : String)
    (counter_rate : ℚ) (calibration_data : Option CalibrationData)
    (tape_length : Option ℚ) (hub_radius tape_speed tape_thickness : ℚ) : Option ℤ :=
  if counter_mode = "manual" then
    calculate_counter_manual elapsed_seconds calibration_data counter_rate
  else if counter_mode = "auto" then
    some (calculate_counter_auto (elapsed_seconds : ℝ) (counter_rate : ℝ)
      (tape_length.map fun q => (q : ℝ)) (hub_radius : ℝ) (tape_speed : ℝ) (tape_thickness : ℝ))
  else
    some (calculate_counter_static elapsed_seconds counter_rate)

/-- The per-track loop of `write_deck_tracklist` (tracklist_generator.py lines
43-56): starting at the leader gap, each track occupies
`[current_time, current_time + int(round(duration))]`, its counter pair is
computed at both ends, and the track gap is added after every track but the
last. -/
noncomputable def tracklistLoop (counter : ℚ → Option ℤ) (track_gap : ℚ) :
    List ℚ → ℚ → Option (List (ℤ × ℤ))
  | [], _ => some []
  | d :: rest, current_time =>
    let duration := pyRound d
    let end_time := current_time + (duration : ℚ)
    match counter current_time, counter end_time,
        tracklistLoop counter track_gap rest
          (end_time + (if rest = [] then 0 else track_gap)) with
    | some cs, some ce, some tail => some ((cs, ce) :: tail)
    | _, _, _ => none

/-- The `(counter_start, counter_end)` pairs `write_deck_tracklist` computes
for a tracklist, given the per-track durations in seconds.  The counter
callback is the module's default wrapper
`calc_func(time_sec, counter_mode, counter_rate, calibration_data)`, i.e.
`calculate_tape_counter` with its default tape parameters
(`tape_length=None`, `hub_radius=10.0`, `tape_speed=47.625`,
`tape_thickness=0.016`). -/
noncomputable def write_deck_tracklist_counters (durations : List ℚ)
    (track_gap leader_gap : ℚ) (counter_mode : String) (counter_rate : ℚ)
    (calibration_data : Option CalibrationData) : Option (List (ℤ × ℤ)) :=
  tracklistLoop
    (fun t => calculate_tape_counter t counter_mode counter_rate calibration_data
      none 10 (381/8) (2/125))
    track_gap durations leader_gap

/-- Modelled from the spec (§4.1, manual mode, third bullet): "locate the
bracketing checkpoint pair `(t1,c1),(t2,c2)` with `t1 ≤ elapsed_seconds ≤ t2`
and linearly interpolate".  The value `0` for a list in which no bracketing
pair exists is arbitrary; the spec only defines the map where such a pair
exists. -/
def specScan (elapsed_seconds : ℚ) : List Checkpoint → ℚ
  | c1 :: c2 :: rest =>
    if c1.time_seconds ≤ elapsed_seconds ∧ elapsed_seconds ≤ c2.time_seconds then
      c1.counter + (c2.counter - c1.counter) *
        ((elapsed_seconds - c1.time_seconds) / (c2.time_seconds - c1.time_seconds))
    else specScan elapsed_seconds (c2 :: rest)
  | _ => 0

/-- Modelled from the spec (§4.1, manual mode): the raw piecewise-linear map
over a time-ordered calibration table, before any rounding.  Before the first
checkpoint the rate is `first.counter / first.time_seconds` with rate `0`
when `first.time_seconds == 0`; at or after the last checkpoint the value
extrapolates with the slope of the last two checkpoints, or with the single
checkpoint's own counter/time ratio; strictly between, the bracketing pair
interpolates. -/
def specManualValue (elapsed_seconds : ℚ) : List Checkpoint → ℚ
  | [] => 0
  | c0 :: rest =>
    if elapsed_seconds ≤ c0.time_seconds then
      elapsed_seconds *
        (if c0.time_seconds = 0 then 0 else c0.counter / c0.time_seconds)
    else
      match rest.reverse with
      | [] =>
        if c0.time_seconds ≤ elapsed_seconds then
          elapsed_seconds * (c0.counter / c0.time_seconds)
        else specScan elapsed_seconds [c0]
      | cLast :: revRest =>
        if cLast.time_seconds ≤ elapsed_seconds then
          cLast.counter +
            ((cLast.counter - (match revRest with | [] => c0 | x :: _ => x).counter) /
              (cLast.time_seconds - (match revRest with | [] => c0 | x :: _ => x).time_seconds)) *
            (elapsed_seconds - cLast.time_seconds)
        else specScan elapsed_seconds (c0 :: rest)

/-- A decoded audio segment as consumed by `analyze_audio_levels`: the two
channel sample streams produced by `split_to_mono()` (a mono source is
duplicated into both channels, as lines 79-88 do), together with pydub's
by-millisecond slicing granularity in samples per millisecond.  pydub is an
external dependency; its millisecond slicing and integer `rms` are modelled
after their documented behaviour. -/
structure AudioSeg where
  left : List ℤ
  right : List ℤ
  samplesPerMs : ℕ

/-- `len(audio_segment)`: the duration in milliseconds; every started
millisecond of samples counts. -/
def AudioSeg.duration_ms (seg : AudioSeg) : ℕ :=
  (seg.left.length + seg.samplesPerMs - 1) / seg.samplesPerMs

/-- pydub millisecond slicing `channel[i : i + c]` of a channel's samples. -/
def msSlice (samples : List ℤ) (spms i c : ℕ) : List ℤ :=
  (samples.drop (i * spms)).take (c * spms)

/-- pydub's `AudioSegment.rms` (`audioop.rms`): the integer part of the root
mean square of the samples; `0` on an empty chunk (the code additionally
guards empty chunks with `if len(chunk) > 0 else 0`).  The identity
`⌊√(s/n)⌋ = Nat.sqrt ⌊s/n⌋` makes the integer square root of the
floor-divided sum of squares the exact value. -/
def pydub_rms (samples : List ℤ) : ℕ :=
  if samples.length = 0 then 0
  else Nat.sqrt ((samples.map fun x => x.natAbs * x.natAbs).sum / samples.length)

/-- The chunk start offsets `range(0, duration_ms, chunk_duration_ms)` of
`analyze_audio_levels`. -/
def chunkStarts (duration_ms chunk_duration_ms : ℕ) : List ℕ :=
  (List.range ((duration_ms + chunk_duration_ms - 1) / chunk_duration_ms)).map
    (· * chunk_duration_ms)

/-- First pass of `analyze_audio_levels` (lines 90-101): the per-chunk RMS
values of one channel. -/
def chunkRmsValues (samples : List ℤ) (spms duration_ms c : ℕ) : List ℕ :=
  (chunkStarts duration_ms c).map fun i => pydub_rms (msSlice samples spms i c)

/-- The adaptive ceiling of `analyze_audio_levels` (lines 103-115): the 95th
percentile RMS of each channel (index `int(n * 0.95)` into the sorted
values), the larger of the two, a 20% headroom factor, floored at 1000; the
constant 8000 when a channel produced no chunks. -/
def adaptiveMaxRms (rms_values_l rms_values_r : List ℕ) : ℚ :=
  if rms_values_l = [] ∨ rms_values_r = [] then 8000
  else
    let sorted_l := rms_values_l.mergeSort fun a b => decide (a ≤ b)
    let sorted_r := rms_values_r.mergeSort fun a b => decide (a ≤ b)
    let percentile_95_idx := (pyInt ((sorted_l.length : ℚ) * (95 / 100))).toNat
    let max_rms_l := if percentile_95_idx < sorted_l.length
      then sorted_l.getD percentile_95_idx 0 else sorted_l.getLastD 0
    let max_rms_r := if percentile_95_idx < sorted_r.length
      then sorted_r.getD percentile_95_idx 0 else sorted_r.getLastD 0
    max (max (max_rms_l : ℚ) (max_rms_r : ℚ) * (12 / 10)) 1000

/-- `analyze_audio_levels` (audio_processor.py lines 70-129): one
`(time_ms, level_left, level_right)` triple per chunk, the levels being
`min(1.0, (rms / adaptive_max_rms) ** 0.5)`; the exponent `0.5` on the
nonnegative ratio is the real square root. -/
noncomputable def analyze_audio_levels (seg : AudioSeg) (chunk_duration_ms : ℕ) :
    List (ℚ × ℝ × ℝ) :=
  let rms_values_l := chunkRmsValues seg.left seg.samplesPerMs seg.duration_ms chunk_duration_ms
  let rms_values_r := chunkRmsValues seg.right seg.samplesPerMs seg.duration_ms chunk_duration_ms
  let adaptive_max_rms := adaptiveMaxRms rms_values_l rms_values_r
  (chunkStarts seg.duration_ms chunk_duration_ms).map fun i =>
    let idx := i / chunk_duration_ms
    let rms_l := if idx < rms_values_l.length then rms_values_l.getD idx 0 else 0
    let rms_r := if idx < rms_values_r.length then rms_values_r.getD idx 0 else 0
    ((i : ℚ),
      min 1 (Real.sqrt ((rms_l : ℝ) / (adaptive_max_rms : ℝ))),
      min 1 (Real.sqrt ((rms_r : ℝ) / (adaptive_max_rms : ℝ))))

/-- The scan of `get_audio_level_at_time` (lines 141-153) from the second
sample onward, carrying the previous sample for interpolation; `none` models
the `for` loop running off the end of the list without returning. -/
noncomputable def levelScanFrom (elapsed_ms : ℚ) (prev : ℚ × ℝ × ℝ) :
    List (ℚ × ℝ × ℝ) → Option (ℝ × ℝ)
  | [] => none
  | (time_ms, level_l, level_r) :: rest =>
    if elapsed_ms ≤ time_ms then
      if 0 < time_ms - prev.1 then
        some (prev.2.1 + (level_l - prev.2.1) *
            (((elapsed_ms - prev.1) / (time_ms - prev.1) : ℚ) : ℝ),
          prev.2.2 + (level_r - prev.2.2) *
            (((elapsed_ms - prev.1) / (time_ms - prev.1) : ℚ) : ℝ))
      else some (level_l, level_r)
    else levelScanFrom elapsed_ms (time_ms, level_l, level_r) rest

/-- `get_audio_level_at_time` (audio_processor.py lines 132-156): `(0, 0)` on
an empty series; the first sample's levels whenever `elapsed_ms` is at or
before its timestamp (`i == 0`); interpolation against the previous sample
for a later first sample with `time_ms ≥ elapsed_ms`; the last sample's
levels when the scan falls off the end. -/
noncomputable def get_audio_level_at_time (levels : List (ℚ × ℝ × ℝ))
    (elapsed_ms : ℚ) : ℝ × ℝ :=
  match levels with
  | [] => (0, 0)
  | (time_ms, level_l, level_r) :: rest =>
    if elapsed_ms ≤ time_ms then (level_l, level_r)
    else
      match levelScanFrom elapsed_ms (time_ms, level_l, level_r) rest with
      | some p => p
      | none => ((levels.getLastD (0, 0, 0)).2.1, (levels.getLastD (0, 0, 0)).2.2)

/-- `normalize_lufs` (audio_processor.py lines 159-205).  `avail` embeds the
module flag `PYLOUDNORM_AVAILABLE`; `peakNormalize` embeds pydub's
`AudioSegment.normalize()` (the fallback of line 165) and `lufsNormalize`
the pyloudnorm measure-and-gain path of lines 167-205, both external
libraries abstracted over the buffer type. -/
def normalize_lufs {Buf : Type} (avail : Bool) (peakNormalize : Buf → Buf)
    (lufsNormalize : ℚ → Buf → Buf) (target_lufs : ℚ) (audio_segment : Buf) : Buf :=
  if avail = false then peakNormalize audio_segment
  else lufsNormalize target_lufs audio_segment

/-- `calculate_loudness` (lines 208-237): `None` without the loudness
capability, otherwise the meter measurement, itself `Option`-valued to model
the `try/except` that returns `None` on failure. -/
def calculate_loudness {Buf : Type} (avail : Bool) (measure : Buf → Option ℚ)
    (audio_segment : Buf) : Option ℚ :=
  if avail = false then none else measure audio_segment

/-- The per-track normalization step of `normalize_tracks` (lines 246-273 and
345-353): when LUFS is requested but the capability is missing the method is
downgraded to `"peak"`, after which the track gets pydub's peak normalization
and no loudness value.  The cache lookup, file export and curses progress
display of `normalize_tracks` are external I/O, not part of the computation
modelled here. -/
def normalizeTrackStep {Buf : Type} (avail : Bool) (peakNormalize : Buf → Buf)
    (lufsNormalize : ℚ → Buf → Buf) (measure : Buf → Option ℚ)
    (normalization_method : String) (target_lufs : ℚ) (audio : Buf) :
    Buf × Option ℚ :=
  let method := if normalization_method = "lufs" ∧ avail = false then "peak"
    else normalization_method
  if method = "lufs" ∧ avail = true then
    let normalized_audio :=
      normalize_lufs avail peakNormalize lufsNormalize target_lufs audio
    (normalized_audio, calculate_loudness avail measure normalized_audio)
  else (peakNormalize audio, none)

/-- A list that is strictly sorted by checkpoint time is left unchanged by
the engine's sort. -/
theorem sortByTime_eq_self (l : List Checkpoint)
    (h : l.Pairwise fun a b => a.time_seconds < b.time_seconds) :
    sortByTime l = l := by
  apply List.mergeSort_of_sorted
  exact h.imp fun hab => by simpa using le_of_lt hab

/-- `pyInt` agrees with the floor on nonnegative arguments. -/
theorem pyInt_nonneg_eq_floor (q : ℚ) (h : 0 ≤ q) : pyInt q = ⌊q⌋ := by
  simp [pyInt, h]

/-- Claim C10: missing mode-specific data is never fatal.  With no
calibration dictionary, or an empty checkpoint list, `calculate_counter_manual`
returns exactly the static counter at the fallback rate; with no tape length,
`calculate_counter_auto` returns exactly the static counter at the base
rate. -/
theorem C10_missing_data_falls_back_to_static (e r : ℚ) (x y hub spd thk : ℝ) :
    calculate_counter_manual e none r = some (calculate_counter_static e r) ∧
    calculate_counter_manual e (some ⟨[]⟩) r = some (calculate_counter_static e r) ∧
    calculate_counter_auto x y none hub spd thk = calculate_counter_staticR x y :=
  ⟨rfl, rfl, rfl⟩

/-- Claim C1 (code bug): contrary to the spec's claim that a degenerate
checkpoint with `time_seconds == 0` is handled by a zero rate and that no
mode ever raises, a calibration table consisting of the single checkpoint
`{time_seconds: 0, counter: 5}` makes manual mode divide by zero (line 87 of
counter_engine.py has no `t > 0` guard, unlike line 76) for any
`elapsed_seconds` past the checkpoint; here at `elapsed_seconds = 10` the
call raises `ZeroDivisionError`, modelled as `none`. -/
theorem C1_single_zero_time_checkpoint_raises :
    calculate_tape_counter 10 "manual" 1 (some ⟨[⟨0, 5⟩]⟩) none 10 (381/8) (2/125) =
      none := by
  have hsort : sortByTime [(⟨0, 5⟩ : Checkpoint)] = [⟨0, 5⟩] :=
    sortByTime_eq_self _ (by simp)
  simp [calculate_tape_counter, calculate_counter_manual, hsort, manualCore, pyDiv]

/-- Claim C2, counterexample: on the table `[(10,5),(20,0)]` (distinct times,
nonnegative integer counters) at `elapsed_seconds = 31` the code truncates
`-5.5` toward zero and returns `-5`, while the floor the claim prescribes is
`-6`; and on the admissible single-checkpoint table `[(0,5)]` at
`elapsed_seconds = 10` the code raises (`none`) instead of returning any
integer. -/
theorem C2_trunc_vs_floor_counterexample :
    calculate_counter_manual 31 (some ⟨[⟨10, 5⟩, ⟨20, 0⟩]⟩) 1 = some (-5) ∧
    ⌊specManualValue 31 [⟨10, 5⟩, ⟨20, 0⟩]⌋ = (-6 : ℤ) ∧
    calculate_counter_manual 10 (some ⟨[⟨0, 5⟩]⟩) 1 = none := by
  have hsort : sortByTime [(⟨10, 5⟩ : Checkpoint), ⟨20, 0⟩] = [⟨10, 5⟩, ⟨20, 0⟩] :=
    sortByTime_eq_self _ (by norm_num [List.pairwise_cons])
  have hsort1 : sortByTime [(⟨0, 5⟩ : Checkpoint)] = [⟨0, 5⟩] :=
    sortByTime_eq_self _ (by simp)
  have hval : ((0 : ℚ) + (0 - 5) / (20 - 10) * (31 - 20)) = -(11/2) := by norm_num
  have hpy : pyInt (-(11/2)) = -5 := by
    rw [pyInt, if_neg (by norm_num), Int.ceil_neg]
    norm_num
  refine ⟨?_, ?_, ?_⟩
  · simp only [calculate_counter_manual, hsort, manualCore, pyDiv, List.reverse_cons,
      List.reverse_nil, List.nil_append, Option.map_some]
    norm_num [hval, hpy]
  · simp only [specManualValue, List.reverse_cons, List.reverse_nil, List.nil_append]
    norm_num
  · simp [calculate_counter_manual, hsort1, manualCore, pyDiv]

/-- `pyDiv` succeeds exactly as ordinary division on a nonzero denominator. -/
theorem pyDiv_some (a b : ℚ) (h : b ≠ 0) : pyDiv a b = some (a / b) := by
  simp [pyDiv, h]

/-- In a strictly time-sorted list whose reversal starts `a :: b :: _`, the
second-to-last time `b` lies strictly below the last time `a`. -/
theorem reverse_head_time_lt (l : List Checkpoint) (a b : Checkpoint)
    (tl : List Checkpoint)
    (h : l.Pairwise fun x y => x.time_seconds < y.time_seconds)
    (hrev : l.reverse = a :: b :: tl) : b.time_seconds < a.time_seconds := by
  have h2 : l.reverse.Pairwise fun x y => y.time_seconds < x.time_seconds :=
    List.pairwise_reverse.mpr h
  rw [hrev] at h2
  exact (List.pairwise_cons.mp h2).1 b (by simp)

/-- On a strictly sorted checkpoint list whose head time lies strictly below
`e` and which contains a checkpoint at or after `e`, the interpolation loop
finds a bracketing pair and returns exactly the spec's interpolant. -/
theorem interpLoop_eq_specScan (e fb : ℚ) :
    ∀ (l : List Checkpoint) (c : Checkpoint),
      ((c :: l).Pairwise fun a b => a.time_seconds < b.time_seconds) →
      c.time_seconds < e →
      (∃ b ∈ l, e ≤ b.time_seconds) →
      interpLoop e fb (c :: l) = some (pyInt (specScan e (c :: l)))
  | [], _, _, _, hex => absurd hex (by simp)
  | c2 :: rest, c, hp, hlt, hex => by
    by_cases hle : e ≤ c2.time_seconds
    · have hcond : c.time_seconds ≤ e ∧ e ≤ c2.time_seconds := ⟨le_of_lt hlt, hle⟩
      have hd : c2.time_seconds - c.time_seconds ≠ 0 :=
        sub_ne_zero.mpr (ne_of_gt (lt_of_lt_of_le hlt hle))
      rw [interpLoop, if_pos hcond, specScan, if_pos hcond, pyDiv_some _ _ hd]
      rfl
    · have hcond : ¬(c.time_seconds ≤ e ∧ e ≤ c2.time_seconds) := fun h => hle h.2
      rw [interpLoop, if_neg hcond, specScan, if_neg hcond]
      refine interpLoop_eq_specScan e fb rest c2 hp.of_cons (not_le.mp hle) ?_
      rcases hex with ⟨b, hb, hbe⟩
      rcases List.mem_cons.mp hb with rfl | hb'
      · exact absurd hbe hle
      · exact ⟨b, hb', hbe⟩

/-- Claim C2 (amended): over a nonempty, strictly time-sorted calibration
table — excluding the single-checkpoint table at time 0, on which the code
raises (see claim C1) — the manual counter is Python's `int` truncation
toward zero (not the floor) of the spec's piecewise-linear map. -/
theorem C2_manual_is_trunc_of_spec_map (e fb : ℚ) (cps : List Checkpoint)
    (he : 0 ≤ e)
    (hsorted : cps.Pairwise fun a b => a.time_seconds < b.time_seconds)
    (hne : cps ≠ [])
    (hdeg : ∀ c, cps = [c] → c.time_seconds ≠ 0) :
    calculate_counter_manual e (some ⟨cps⟩) fb =
      some (pyInt (specManualValue e cps)) := by
  match cps, hne, hsorted, hdeg with
  | c0 :: rest, _, hsorted, hdeg =>
    have hsort' : sortByTime (c0 :: rest) = c0 :: rest := sortByTime_eq_self _ hsorted
    show manualCore e (sortByTime (c0 :: rest)) fb = _
    rw [hsort']
    by_cases h1 : e ≤ c0.time_seconds
    · -- at or before the first checkpoint
      rw [manualCore, if_pos h1, specManualValue, if_pos h1]
      rcases (le_trans he h1).eq_or_lt with h0 | hpos
      · rw [if_neg (by rw [← h0]; exact lt_irrefl 0), if_pos h0.symm]
      · rw [if_pos hpos, if_neg (ne_of_gt hpos)]
    · rcases hrev : rest.reverse with _ | ⟨cLast, revRest⟩
      · -- a single checkpoint
        have hrest : rest = [] := List.reverse_eq_nil_iff.mp hrev
        subst hrest
        have ht0 : c0.time_seconds ≠ 0 := hdeg c0 rfl
        simp only [manualCore, specManualValue, List.reverse_nil, if_neg h1,
          if_pos (le_of_lt (not_le.mp h1)), pyDiv_some _ _ ht0]
        rfl
      · have hmemLast : cLast ∈ rest := by
          rw [← List.mem_reverse, hrev]; exact List.mem_cons_self _ _
        by_cases hle : cLast.time_seconds ≤ e
        · -- at or after the last checkpoint, at least two checkpoints
          rcases revRest with _ | ⟨x, rtl⟩
          · have hrev' : (c0 :: rest).reverse = cLast :: c0 :: [] := by
              rw [List.reverse_cons, hrev]; rfl
            have hlt2 : c0.time_seconds < cLast.time_seconds :=
              reverse_head_time_lt _ _ _ _ hsorted hrev'
            simp only [manualCore, specManualValue, hrev, if_neg h1, if_pos hle,
              pyDiv_some _ _ (sub_ne_zero.mpr (ne_of_gt hlt2))]
            rfl
          · have hrev' : (c0 :: rest).reverse = cLast :: x :: (rtl ++ [c0]) := by
              rw [List.reverse_cons, hrev]; rfl
            have hlt2 : x.time_seconds < cLast.time_seconds :=
              reverse_head_time_lt _ _ _ _ hsorted hrev'
            simp only [manualCore, specManualValue, hrev, if_neg h1, if_pos hle,
              pyDiv_some _ _ (sub_ne_zero.mpr (ne_of_gt hlt2))]
            rfl
        · -- strictly between checkpoints: the interpolation loop
          simp only [manualCore, specManualValue, hrev, if_neg h1, if_neg hle]
          exact interpLoop_eq_specScan e fb rest c0 hsorted (not_le.mp h1)
            ⟨cLast, hmemLast, le_of_lt (not_le.mp hle)⟩

/-- Claim C2, witness: on the spec's own example table `[(60,60),(300,300)]`
at `elapsed_seconds = 180` the amended theorem applies and the engine returns
the truncated piecewise value. -/
theorem C2_manual_is_trunc_of_spec_map_witness :
    (0 : ℚ) ≤ 180 ∧
    calculate_counter_manual 180 (some ⟨[⟨60, 60⟩, ⟨300, 300⟩]⟩) 1 =
      some (pyInt (specManualValue 180 [⟨60, 60⟩, ⟨300, 300⟩])) :=
  ⟨by norm_num,
    C2_manual_is_trunc_of_spec_map 180 1 [⟨60, 60⟩, ⟨300, 300⟩] (by norm_num)
      (by norm_num [List.pairwise_cons]) (by simp) (by simp)⟩

/-- Claim C9: three tracks of 100 s, 150 s and 80 s with a 5 s track gap and
a 10 s leader gap, in static mode at rate 1.0, produce the counter ranges
`(10, 110)`, `(115, 265)` and `(270, 350)`. -/
theorem C9_end_to_end_tracklist_counters :
    write_deck_tracklist_counters [100, 150, 80] 5 10 "static" 1 none =
      some [(10, 110), (115, 265), (270, 350)] := by
  have hstat : ∀ t : ℚ,
      calculate_tape_counter t "static" 1 none none 10 (381/8) (2/125) =
        some (pyInt t) := by
    intro t
    show some (calculate_counter_static t 1) = _
    rw [calculate_counter_static, mul_one]
  have h100 : pyRound (100 : ℚ) = 100 := by norm_num [pyRound]
  have h150 : pyRound (150 : ℚ) = 150 := by norm_num [pyRound]
  have h80 : pyRound (80 : ℚ) = 80 := by norm_num [pyRound]
  have hif1 : (if ([150, 80] : List ℚ) = [] then (0 : ℚ) else 5) = 5 := if_neg (by simp)
  have hif2 : (if ([80] : List ℚ) = [] then (0 : ℚ) else 5) = 5 := if_neg (by simp)
  have hif3 : (if ([] : List ℚ) = [] then (0 : ℚ) else 5) = 0 := if_pos rfl
  simp only [write_deck_tracklist_counters, tracklistLoop, hstat, h100, h150, h80,
    hif1, hif2, hif3]
  norm_num [pyInt]

/-- `calculate_counter_auto` with a tape length, written through `reelRadius`:
the scale is the mid-tape radius over the take-up radius at the consumed
length `min(elapsed * speed, length)`. -/
theorem calculate_counter_auto_some (e r len hub s th : ℝ) :
    calculate_counter_auto e r (some len) hub s th =
      pyIntR (e * r *
        (reelRadius hub (len / 2) th / reelRadius hub (min (e * s) len) th)) := rfl

/-- `pyIntR` agrees with the floor on nonnegative arguments. -/
theorem pyIntR_nonneg_eq_floor (x : ℝ) (h : 0 ≤ x) : pyIntR x = ⌊x⌋ := by
  simp [pyIntR, h]

/-- `pyIntR` is monotone on nonnegative arguments. -/
theorem pyIntR_mono_of_nonneg (x y : ℝ) (hx : 0 ≤ x) (hxy : x ≤ y) :
    pyIntR x ≤ pyIntR y := by
  rw [pyIntR_nonneg_eq_floor _ hx, pyIntR_nonneg_eq_floor _ (hx.trans hxy)]
  exact Int.floor_le_floor hxy

/-- The reel radius is strictly positive for a positive hub radius and
nonnegative wound length and thickness. -/
theorem reelRadius_pos (hub m th : ℝ) (hhub : 0 < hub) (hm : 0 ≤ m)
    (hth : 0 ≤ th) : 0 < reelRadius hub m th := by
  rw [reelRadius]
  apply Real.sqrt_pos.mpr
  have hπ : (0 : ℝ) < Real.pi := Real.pi_pos
  positivity

/-- The reel radius is never negative. -/
theorem reelRadius_nonneg (hub m th : ℝ) : 0 ≤ reelRadius hub m th :=
  Real.sqrt_nonneg _

/-- Claim C3: in auto mode with `base_rate = 1.0`, positive tape parameters,
and elapsed time equal to half of `tape_length / tape_speed`, the physics
counter equals `floor(elapsed_seconds * base_rate)`: at the temporal midpoint
the consumed tape is exactly half the tape, so the scale
`mid_radius / takeup_radius` is exactly 1. -/
theorem C3_auto_midpoint_matches_base_rate (e len hub s th : ℝ)
    (he : e = len / s / 2) (hlen : 0 < len) (hs : 0 < s) (hhub : 0 < hub)
    (hth : 0 < th) :
    calculate_counter_auto e 1 (some len) hub s th = ⌊e * (1 : ℝ)⌋ := by
  have he0 : 0 ≤ e := by rw [he]; positivity
  have hes : e * s = len / 2 := by rw [he]; field_simp; ring
  have hmin : min (e * s) len = len / 2 := by
    rw [hes, min_eq_left (by linarith)]
  have hRpos : 0 < reelRadius hub (len / 2) th :=
    reelRadius_pos _ _ _ hhub (by positivity) hth.le
  rw [calculate_counter_auto_some, hmin, div_self (ne_of_gt hRpos), mul_one, mul_one,
    pyIntR_nonneg_eq_floor _ he0]

/-- Claim C3, witness: a 100 mm tape at 2 mm/s has its temporal midpoint at
25 s, where the auto counter equals the floored base-rate product. -/
theorem C3_auto_midpoint_matches_base_rate_witness :
    (25 : ℝ) = 100 / 2 / 2 ∧
    calculate_counter_auto 25 1 (some 100) 1 2 1 = ⌊(25 : ℝ) * 1⌋ :=
  ⟨by norm_num,
    C3_auto_midpoint_matches_base_rate 25 100 1 2 1 (by norm_num) (by norm_num)
      (by norm_num) (by norm_num) (by norm_num)⟩

/-- Claim C4: with a nonnegative base rate and positive tape parameters the
auto counter is monotone non-decreasing in elapsed time, and beyond
`tape_length / tape_speed` the consumed tape saturates at the full length, so
the counter equals the floor-truncation of a fixed linear rate
(`autoEndRate`) times the elapsed time. -/
theorem C4_auto_monotone_and_saturated_linear (r len hub s th t1 t2 t : ℝ)
    (hr : 0 ≤ r) (hlen : 0 < len) (hs : 0 < s) (hhub : 0 < hub) (hth : 0 < th)
    (h1 : 0 ≤ t1) (h12 : t1 ≤ t2) (hsat : len / s ≤ t) :
    calculate_counter_auto t1 r (some len) hub s th ≤
      calculate_counter_auto t2 r (some len) hub s th ∧
    calculate_counter_auto t r (some len) hub s th =
      pyIntR (t * autoEndRate r len hub th) := by
  have h2 : 0 ≤ t2 := h1.trans h12
  have hM : 0 ≤ reelRadius hub (len / 2) th := reelRadius_nonneg _ _ _
  constructor
  · have hm1 : 0 ≤ min (t1 * s) len := le_min (by positivity) hlen.le
    have hm2 : 0 ≤ min (t2 * s) len := le_min (by positivity) hlen.le
    have hR1 : 0 < reelRadius hub (min (t1 * s) len) th :=
      reelRadius_pos _ _ _ hhub hm1 hth.le
    have hR2 : 0 < reelRadius hub (min (t2 * s) len) th :=
      reelRadius_pos _ _ _ hhub hm2 hth.le
    -- the tape consumed grows no faster than proportionally to elapsed time
    have key : t1 * min (t2 * s) len ≤ t2 * min (t1 * s) len := by
      rw [mul_min_of_nonneg _ _ h1, mul_min_of_nonneg _ _ h2]
      exact min_le_min (le_of_eq (by ring))
        (mul_le_mul_of_nonneg_right h12 hlen.le)
    -- squared cross-multiplied radius inequality
    have key2 : t1 ^ 2 * (hub ^ 2 + min (t2 * s) len * th / Real.pi) ≤
        t2 ^ 2 * (hub ^ 2 + min (t1 * s) len * th / Real.pi) := by
      have hπ : (0 : ℝ) ≤ th / Real.pi := div_nonneg hth.le Real.pi_pos.le
      have e1 : t1 ^ 2 * (hub ^ 2 + min (t2 * s) len * th / Real.pi) =
          t1 ^ 2 * hub ^ 2 + t1 * (t1 * min (t2 * s) len) * (th / Real.pi) := by
        ring
      have e2 : t2 ^ 2 * (hub ^ 2 + min (t1 * s) len * th / Real.pi) =
          t2 ^ 2 * hub ^ 2 + t2 * (t2 * min (t1 * s) len) * (th / Real.pi) := by
        ring
      rw [e1, e2]
      apply add_le_add
      · exact mul_le_mul_of_nonneg_right (pow_le_pow_left₀ h1 h12 2) (sq_nonneg hub)
      · apply mul_le_mul_of_nonneg_right _ hπ
        calc t1 * (t1 * min (t2 * s) len) ≤ t1 * (t2 * min (t1 * s) len) :=
              mul_le_mul_of_nonneg_left key h1
          _ ≤ t2 * (t2 * min (t1 * s) len) :=
              mul_le_mul_of_nonneg_right h12 (mul_nonneg h2 hm1)
    have hL : t1 * Real.sqrt (hub ^ 2 + min (t2 * s) len * th / Real.pi) =
        Real.sqrt (t1 ^ 2 * (hub ^ 2 + min (t2 * s) len * th / Real.pi)) := by
      rw [Real.sqrt_mul (sq_nonneg t1), Real.sqrt_sq h1]
    have hRr : t2 * Real.sqrt (hub ^ 2 + min (t1 * s) len * th / Real.pi) =
        Real.sqrt (t2 ^ 2 * (hub ^ 2 + min (t1 * s) len * th / Real.pi)) := by
      rw [Real.sqrt_mul (sq_nonneg t2), Real.sqrt_sq h2]
    have hcross : t1 * reelRadius hub (min (t2 * s) len) th ≤
        t2 * reelRadius hub (min (t1 * s) len) th := by
      rw [reelRadius, reelRadius, hL, hRr]
      exact Real.sqrt_le_sqrt key2
    have hdiv : t1 / reelRadius hub (min (t1 * s) len) th ≤
        t2 / reelRadius hub (min (t2 * s) len) th :=
      (div_le_div_iff₀ hR1 hR2).mpr hcross
    rw [calculate_counter_auto_some, calculate_counter_auto_some]
    apply pyIntR_mono_of_nonneg
    · have := div_nonneg hM hR1.le
      positivity
    · have hrw1 : t1 * r * (reelRadius hub (len / 2) th /
          reelRadius hub (min (t1 * s) len) th) =
          r * reelRadius hub (len / 2) th *
            (t1 / reelRadius hub (min (t1 * s) len) th) := by ring
      have hrw2 : t2 * r * (reelRadius hub (len / 2) th /
          reelRadius hub (min (t2 * s) len) th) =
          r * reelRadius hub (len / 2) th *
            (t2 / reelRadius hub (min (t2 * s) len) th) := by ring
      rw [hrw1, hrw2]
      exact mul_le_mul_of_nonneg_left hdiv (mul_nonneg hr hM)
  · have hmin : min (t * s) len = len :=
      min_eq_right ((div_le_iff₀ hs).mp hsat)
    rw [calculate_counter_auto_some, hmin, autoEndRate]
    congr 1
    ring

/-- Claim C4, witness: concrete positive tape parameters with `5 ≤ 7` in the
pre-saturation regime and `t = 20` past the 10 s tape end. -/
theorem C4_auto_monotone_and_saturated_linear_witness :
    calculate_counter_auto 5 1 (some 10) 1 1 1 ≤
      calculate_counter_auto 7 1 (some 10) 1 1 1 ∧
    calculate_counter_auto 20 1 (some 10) 1 1 1 =
      pyIntR (20 * autoEndRate 1 10 1 1) :=
  C4_auto_monotone_and_saturated_linear 1 10 1 1 1 5 7 20 (by norm_num)
    (by norm_num) (by norm_num) (by norm_num) (by norm_num) (by norm_num)
    (by norm_num) (by norm_num)

/-- Claim C8: with the loudness-measurement capability unavailable, a
requested LUFS normalization degrades without error to exactly the peak
normalization of the same input, and the reported loudness is absent: both
in the `normalize_tracks` branch (method downgraded to peak, loudness
`None`) and inside `normalize_lufs` itself (line 165 fallback). -/
theorem C8_lufs_fallback_is_peak {Buf : Type} (peakNormalize : Buf → Buf)
    (lufsNormalize : ℚ → Buf → Buf) (measure : Buf → Option ℚ)
    (target_lufs : ℚ) (audio : Buf) :
    normalizeTrackStep false peakNormalize lufsNormalize measure "lufs"
        target_lufs audio = (peakNormalize audio, none) ∧
    normalize_lufs false peakNormalize lufsNormalize target_lufs audio =
      peakNormalize audio := by
  constructor
  · simp [normalizeTrackStep]
  · rfl

/-- The scan of `get_audio_level_at_time` runs off the end of the series when
every remaining timestamp lies strictly before the queried time. -/
theorem levelScanFrom_eq_none (e : ℚ) :
    ∀ (l : List (ℚ × ℝ × ℝ)) (prev : ℚ × ℝ × ℝ),
      (∀ q ∈ l, q.1 < e) → levelScanFrom e prev l = none
  | [], _, _ => rfl
  | (t, ll, lr) :: rest, prev, h => by
    rw [levelScanFrom, if_neg (not_le.mpr (h (t, ll, lr) (List.mem_cons_self _ _)))]
    exact levelScanFrom_eq_none e rest (t, ll, lr) fun q hq =>
      h q (List.mem_cons_of_mem _ hq)

/-- Claim C7: `get_audio_level_at_time` is total — on an empty series it
returns `(0.0, 0.0)`, and when the queried time exceeds every timestamp of
the series (in a time-ordered series: exceeds the last sample's time) it
returns the last sample's levels unchanged. -/
theorem C7_level_at_beyond_end_and_empty (e : ℚ) (levels : List (ℚ × ℝ × ℝ))
    (p : ℚ × ℝ × ℝ) (hlast : levels.getLast? = some p)
    (hgt : ∀ q ∈ levels, q.1 < e) :
    get_audio_level_at_time [] e = (0, 0) ∧
    get_audio_level_at_time levels e = (p.2.1, p.2.2) := by
  refine ⟨rfl, ?_⟩
  match levels, hlast, hgt with
  | (t, ll, lr) :: rest, hlast, hgt =>
    rw [get_audio_level_at_time,
      if_neg (not_le.mpr (hgt (t, ll, lr) (List.mem_cons_self _ _))),
      levelScanFrom_eq_none e rest (t, ll, lr)
        (fun q hq => hgt q (List.mem_cons_of_mem _ hq)),
      List.getLastD_eq_getLast?, hlast]
    rfl

/-- Claim C7, witness: the empty series yields silence, and a query at 5 ms
past a series ending at 0 ms returns the final sample's levels. -/
theorem C7_level_at_beyond_end_and_empty_witness :
    get_audio_level_at_time [] 5 = (0, 0) ∧
    get_audio_level_at_time [(0, (1 : ℝ) / 2, (1 : ℝ) / 3)] 5 = (1 / 2, 1 / 3) :=
  ⟨(C7_level_at_beyond_end_and_empty 5 [(0, 1 / 2, 1 / 3)] (0, 1 / 2, 1 / 3)
      rfl (by norm_num)).1,
    (C7_level_at_beyond_end_and_empty 5 [(0, 1 / 2, 1 / 3)] (0, 1 / 2, 1 / 3)
      rfl (by norm_num)).2⟩

/-- On a strictly time-ordered tail whose timestamps all lie strictly after
the carried previous sample, querying exactly at a member's timestamp makes
the scan stop at that member with interpolation factor exactly 1, returning
its level pair. -/
theorem levelScanFrom_at_sample (e : ℚ) :
    ∀ (l : List (ℚ × ℝ × ℝ)) (prev p : ℚ × ℝ × ℝ),
      (l.Pairwise fun a b => a.1 < b.1) →
      (∀ q ∈ l, prev.1 < q.1) →
      p ∈ l → e = p.1 →
      levelScanFrom e prev l = some (p.2.1, p.2.2)
  | [], _, p, _, _, hp, _ => absurd hp (by simp)
  | (t, ll, lr) :: rest, prev, p, hsort, hprev, hp, he => by
    rcases List.mem_cons.mp hp with rfl | hp'
    · have hd : 0 < t - prev.1 :=
        sub_pos.mpr (hprev (t, ll, lr) (List.mem_cons_self _ _))
      rw [levelScanFrom, if_pos (le_of_eq he), if_pos hd]
      have hfac : ((e - prev.1) / (t - prev.1) : ℚ) = 1 := by
        rw [he]; exact div_self (ne_of_gt hd)
      rw [hfac]
      norm_num
    · have hlt : t < p.1 := (List.pairwise_cons.mp hsort).1 p hp'
      rw [levelScanFrom, if_neg (not_le.mpr (by rw [he]; exact hlt))]
      exact levelScanFrom_at_sample e rest (t, ll, lr) p
        (List.pairwise_cons.mp hsort).2
        (fun q hq => (List.pairwise_cons.mp hsort).1 q hq) hp' he

/-- Claim C6: querying a strictly time-ordered level series exactly at one of
its samples' timestamps returns exactly that sample's level pair — in the
boundary case of the first sample directly, and at any later sample through
interpolation with factor 1; and every series `analyze_audio_levels`
generates is strictly time-ordered, so this round trip covers generated
series in particular. -/
theorem C6_level_series_roundtrip (levels : List (ℚ × ℝ × ℝ)) (p : ℚ × ℝ × ℝ)
    (seg : AudioSeg) (c : ℕ)
    (hsort : levels.Pairwise fun a b => a.1 < b.1) (hp : p ∈ levels)
    (hc : 0 < c) :
    get_audio_level_at_time levels p.1 = (p.2.1, p.2.2) ∧
    (analyze_audio_levels seg c).Pairwise fun a b => a.1 < b.1 := by
  constructor
  · match levels, hsort, hp with
    | (t, ll, lr) :: rest, hsort, hp =>
      rcases List.mem_cons.mp hp with rfl | hp'
      · rw [get_audio_level_at_time, if_pos (le_refl _)]
      · have hlt : t < p.1 := (List.pairwise_cons.mp hsort).1 p hp'
        rw [get_audio_level_at_time, if_neg (not_le.mpr hlt),
          levelScanFrom_at_sample p.1 rest (t, ll, lr) p
            (List.pairwise_cons.mp hsort).2
            (fun q hq => (List.pairwise_cons.mp hsort).1 q hq) hp' rfl]
  · simp only [analyze_audio_levels, chunkStarts]
    have h0 : (List.range ((seg.duration_ms + c - 1) / c)).Pairwise
        (fun a b : ℕ => a < b) := List.pairwise_lt_range _
    have h1 : ((List.range ((seg.duration_ms + c - 1) / c)).map (· * c)).Pairwise
        (fun a b : ℕ => a < b) :=
      h0.map _ fun a b hab => mul_lt_mul_of_pos_right hab hc
    exact h1.map _ fun a b hab => show ((a : ℚ) < (b : ℚ)) from Nat.cast_lt.mpr hab

/-- Claim C6, witness: at the second sample's own timestamp (10 ms) of a
two-sample series, the interpolation returns exactly that sample's levels,
and the one-chunk series generated from a silent segment is time-ordered. -/
theorem C6_level_series_roundtrip_witness :
    get_audio_level_at_time [(0, 1, 1), (10, 1 / 2, 1 / 4)] 10 = (1 / 2, 1 / 4) ∧
    (analyze_audio_levels ⟨[0], [0], 1⟩ 50).Pairwise fun a b => a.1 < b.1 :=
  ⟨(C6_level_series_roundtrip [(0, 1, 1), (10, 1 / 2, 1 / 4)] (10, 1 / 2, 1 / 4)
      ⟨[0], [0], 1⟩ 50 (by norm_num [List.pairwise_cons]) (by simp)
      (by norm_num)).1,
    (C6_level_series_roundtrip [(0, 1, 1), (10, 1 / 2, 1 / 4)] (10, 1 / 2, 1 / 4)
      ⟨[0], [0], 1⟩ 50 (by norm_num [List.pairwise_cons]) (by simp)
      (by norm_num)).2⟩

/-- A sample of a millisecond slice is a sample of the channel. -/
theorem mem_of_mem_msSlice {x : ℤ} {samples : List ℤ} {spms i c : ℕ}
    (h : x ∈ msSlice samples spms i c) : x ∈ samples :=
  List.mem_of_mem_drop (List.mem_of_mem_take h)

/-- The RMS of an all-zero chunk is 0. -/
theorem pydub_rms_zero (samples : List ℤ) (h : ∀ x ∈ samples, x = 0) :
    pydub_rms samples = 0 := by
  rw [pydub_rms]
  split
  · rfl
  · have hsum : (samples.map fun x => x.natAbs * x.natAbs).sum = 0 :=
      List.sum_eq_zero fun z hz => by
        rcases List.mem_map.mp hz with ⟨y, hy, rfl⟩
        rw [h y hy]; rfl
    rw [hsum, Nat.zero_div, Nat.sqrt_zero]

/-- Reading any position of an all-zero list with default 0 yields 0. -/
theorem getD_zero_of_all_zero :
    ∀ (l : List ℕ) (i : ℕ), (∀ x ∈ l, x = 0) → l.getD i 0 = 0
  | [], i, _ => by cases i <;> rfl
  | a :: _, 0, h => h a (List.mem_cons_self _ _)
  | _ :: l, i + 1, h =>
    getD_zero_of_all_zero l i fun x hx => h x (List.mem_cons_of_mem _ hx)

/-- Claim C5: every level `analyze_audio_levels` emits lies in `[0, 1]` for
both channels of any input buffer with a positive chunk duration; and on an
all-zero (silent) buffer every emitted level is exactly 0. -/
theorem C5_levels_bounded_and_silent_zero (seg : AudioSeg) (c : ℕ)
    (p : ℚ × ℝ × ℝ) (hc : 0 < c) (hp : p ∈ analyze_audio_levels seg c) :
    ((0 ≤ p.2.1 ∧ p.2.1 ≤ 1) ∧ (0 ≤ p.2.2 ∧ p.2.2 ≤ 1)) ∧
    ((∀ x ∈ seg.left, x = 0) → (∀ x ∈ seg.right, x = 0) →
      p.2.1 = 0 ∧ p.2.2 = 0) := by
  simp only [analyze_audio_levels, List.mem_map] at hp
  obtain ⟨i, hi, rfl⟩ := hp
  constructor
  · exact ⟨⟨le_min zero_le_one (Real.sqrt_nonneg _), min_le_left _ _⟩,
      ⟨le_min zero_le_one (Real.sqrt_nonneg _), min_le_left _ _⟩⟩
  · intro hL hR
    have hvalsL : ∀ x ∈ chunkRmsValues seg.left seg.samplesPerMs
        seg.duration_ms c, x = 0 := by
      intro x hx
      rcases List.mem_map.mp hx with ⟨j, _, rfl⟩
      exact pydub_rms_zero _ fun y hy => hL y (mem_of_mem_msSlice hy)
    have hvalsR : ∀ x ∈ chunkRmsValues seg.right seg.samplesPerMs
        seg.duration_ms c, x = 0 := by
      intro x hx
      rcases List.mem_map.mp hx with ⟨j, _, rfl⟩
      exact pydub_rms_zero _ fun y hy => hR y (mem_of_mem_msSlice hy)
    have hzL : (if i / c < (chunkRmsValues seg.left seg.samplesPerMs
        seg.duration_ms c).length then
          (chunkRmsValues seg.left seg.samplesPerMs seg.duration_ms c).getD
            (i / c) 0
        else 0) = 0 := by
      split
      · exact getD_zero_of_all_zero _ _ hvalsL
      · rfl
    have hzR : (if i / c < (chunkRmsValues seg.right seg.samplesPerMs
        seg.duration_ms c).length then
          (chunkRmsValues seg.right seg.samplesPerMs seg.duration_ms c).getD
            (i / c) 0
        else 0) = 0 := by
      split
      · exact getD_zero_of_all_zero _ _ hvalsR
      · rfl
    constructor
    · show min 1 (Real.sqrt _) = 0
      rw [hzL]
      norm_num
    · show min 1 (Real.sqrt _) = 0
      rw [hzR]
      norm_num

/-- Claim C5, witness: a one-chunk silent segment analysed at chunk duration
50 ms yields the sample `(0, 0.0, 0.0)`, which is within bounds and silent. -/
theorem C5_levels_bounded_and_silent_zero_witness :
    0 < 50 ∧
    ((0 : ℚ), (0 : ℝ), (0 : ℝ)) ∈ analyze_audio_levels ⟨[0], [0], 1⟩ 50 ∧
    ((0 ≤ (0 : ℝ) ∧ (0 : ℝ) ≤ 1) ∧ (0 ≤ (0 : ℝ) ∧ (0 : ℝ) ≤ 1)) ∧
    ((0 : ℝ) = 0 ∧ (0 : ℝ) = 0) := by
  have heval : analyze_audio_levels ⟨[0], [0], 1⟩ 50 = [(0, 0, 0)] := by
    have h1 : chunkRmsValues [0] 1 1 50 = [0] := by
      norm_num [chunkRmsValues, chunkStarts, List.range_succ, List.range_zero,
        msSlice, pydub_rms]
    have h2 : adaptiveMaxRms [0] [0] = 1000 := by
      norm_num [adaptiveMaxRms, List.mergeSort_singleton, pyInt]
    have hd : (AudioSeg.mk [0] [0] 1).duration_ms = 1 := by
      norm_num [AudioSeg.duration_ms]
    simp only [analyze_audio_levels, hd, h1, h2]
    norm_num [chunkStarts, List.range_succ, List.range_zero, Real.sqrt_zero]
  have hmem : ((0 : ℚ), (0 : ℝ), (0 : ℝ)) ∈ analyze_audio_levels ⟨[0], [0], 1⟩ 50 := by
    rw [heval]; exact List.mem_singleton.mpr rfl
  exact ⟨by norm_num, hmem,
    (C5_levels_bounded_and_silent_zero ⟨[0], [0], 1⟩ 50 (0, 0, 0) (by norm_num)
      hmem).1,
    (C5_levels_bounded_and_silent_zero ⟨[0], [0], 1⟩ 50 (0, 0, 0) (by norm_num)
      hmem).2 (by simp) (by simp)⟩
